/-
Verification of the ynab-alerts rule-evaluation engine.

This file gives a shallow embedding, in Lean 4, of the rule engine found in
the repository (package `rules`: evaluation, observation capture, schedule
gating, the observation store, and the lint/next-eval estimator), and proves
the behavioural claims about it.

Conventions of the embedding:
  * Go `time.Time` (always used in UTC in the engine and its tests) is
    modelled as `Int`: seconds since the Unix epoch.  Calendar fields are
    derived with the standard proleptic-Gregorian civil-from-days algorithm.
  * Go `time.Duration` values are modelled in seconds.
  * Go strings are Lean `String`s; the handful of `strings.*` helpers used by
    the source (TrimSpace, Split, HasPrefix, TrimPrefix, ToLower, Fields,
    Trim) are re-implemented below over `String.data` so that they can be
    reasoned about directly.  They model the ASCII behaviour, which is all the
    engine exercises.
  * `strconv.ParseFloat` is modelled on plain decimal literals
    (`[+-]?digits[.digits]`), exactly the forms the rule DSL uses, with exact
    rational arithmetic; `math.Round` is "round half away from zero".
  * The third-party cron library (`robfig/cron`) is an external collaborator;
    it is abstracted as a `CronEngine`: a parser that either fails or yields
    the library's `Next` function.
  * The `context.Context` cancellation check in `Evaluate` is modelled as a
    never-cancelled context (no claim concerns cancellation).
-/
import Mathlib

set_option autoImplicit false
set_option maxRecDepth 4000

namespace YnabAlerts

/-! ## String helpers (models of the `strings` package functions used) -/

/-- Whitespace test used by `strings.TrimSpace` / `strings.Fields`
(ASCII forms). -/
def wsp (c : Char) : Bool :=
  c = ' ' || c = '\t' || c = '\n' || c = '\r'

/-- Drop trailing characters satisfying `p`. -/
def dropTrail (p : Char → Bool) (l : List Char) : List Char :=
  (l.reverse.dropWhile p).reverse

/-- Character-list model of `strings.TrimSpace`. -/
def trimCh (l : List Char) : List Char :=
  dropTrail wsp (l.dropWhile wsp)

/-- Model of `strings.TrimSpace`. -/
def strTrim (s : String) : String := ⟨trimCh s.data⟩

/-- Model of `strings.Split(s, sep)` for a one-character separator: splits on
every occurrence, keeping empty fields. -/
def splitCh (sep : Char) : List Char → List (List Char)
  | [] => [[]]
  | c :: rest =>
    if c = sep then [] :: splitCh sep rest
    else
      match splitCh sep rest with
      | [] => [[c]]
      | g :: gs => (c :: g) :: gs

/-- `strings.Split(s, "*")` as used by the value resolver. -/
def splitStar (s : String) : List String :=
  (splitCh '*' s.data).map (fun cs => ⟨cs⟩)

/-- Model of `strings.HasPrefix(s, pre)`. -/
def hasPre (pre s : String) : Bool := pre.data.isPrefixOf s.data

/-- Model of `strings.TrimPrefix(s, pre)` under the assumption the prefix is
present (the source only calls it after `HasPrefix`). -/
def dropPre (pre s : String) : String := ⟨s.data.drop pre.data.length⟩

/-- Model of `strings.ToLower` (ASCII). -/
def lowerStr (s : String) : String := ⟨s.data.map Char.toLower⟩

/-- Model of `strings.EqualFold` (ASCII case-insensitive equality). -/
def eqFold (a b : String) : Bool := lowerStr a = lowerStr b

/-- Model of `strings.Trim(s, cutset)` for a one-character cutset. -/
def trimChar (c : Char) (l : List Char) : List Char :=
  dropTrail (fun x => x = c) (l.dropWhile (fun x => x = c))

/-- Model of `strings.Fields`: split on whitespace runs, dropping empties. -/
def fieldsCh : List Char → List (List Char)
  | [] => []
  | c :: rest =>
    if wsp c then fieldsCh rest
    else
      match fieldsCh rest with
      | [] => [[c]]
      | g :: gs =>
        match rest with
        | [] => [[c]]
        | r :: _ => if wsp r then [c] :: g :: gs else (c :: g) :: gs

/-- First index of character `c` (model of `strings.Index` for one char). -/
def idxOfCh (c : Char) : List Char → Option Nat
  | [] => none
  | x :: rest =>
    if x = c then some 0
    else (idxOfCh c rest).map (· + 1)

/-- Last index of character `c` (model of `strings.LastIndex`). -/
def lastIdxOfCh (c : Char) (l : List Char) : Option Nat :=
  (idxOfCh c l.reverse).map (fun i => l.length - 1 - i)

/-- Digits of a decimal string, folded to a `Nat`. -/
def natOfDigits (l : List Char) : Nat :=
  l.foldl (fun a c => a * 10 + (c.toNat - '0'.toNat)) 0

/-- All-digit check with non-emptiness: the digit part accepted by
`strconv.Atoi` after the sign. -/
def parseDigits (l : List Char) : Option Nat :=
  if l ≠ [] ∧ l.all Char.isDigit then some (natOfDigits l) else none

/-- Model of `strconv.Atoi`: optional sign followed by one or more digits. -/
def parseAtoi (s : String) : Option Int :=
  match s.data with
  | '+' :: rest => (parseDigits rest).map Int.ofNat
  | '-' :: rest => (parseDigits rest).map (fun n => -(n : Int))
  | rest => (parseDigits rest).map Int.ofNat

/-- Model of `strconv.ParseFloat` restricted to plain decimal literals
`[+-]?digits[.digits]` (with at least one digit overall) — the only float
forms the rule DSL uses.  The result is exact: a pair `(num, den)` denoting
the rational `num / den`, with `den` the power of ten matching the number of
fraction digits. -/
def parseDecimal (s : String) : Option (Int × Int) :=
  let (sgn, rest) : Int × List Char :=
    match s.data with
    | '+' :: r => (1, r)
    | '-' :: r => (-1, r)
    | r => (1, r)
  let intPart := rest.takeWhile Char.isDigit
  let rest2 := rest.dropWhile Char.isDigit
  match rest2 with
  | [] =>
    if intPart = [] then none
    else some (sgn * natOfDigits intPart, 1)
  | '.' :: r3 =>
    let fracPart := r3.takeWhile Char.isDigit
    let rest4 := r3.dropWhile Char.isDigit
    if rest4 ≠ [] then none
    else if intPart = [] ∧ fracPart = [] then none
    else
      let den : Int := (10 : Int) ^ fracPart.length
      some (sgn * ((natOfDigits intPart : Int) * den + natOfDigits fracPart), den)
  | _ => none

/-- Go `math.Round` applied to the exact rational `a / b` (`b > 0`): round to
nearest with halves away from zero, as an integer computation.  The source
always applies `int64(math.Round(x))`. -/
def roundDiv (a b : Int) : Int :=
  if 0 ≤ a then (2 * a + b) / (2 * b) else -((2 * (-a) + b) / (2 * b))

/-- Go `math.Round` on an exact rational, for specification statements. -/
def roundAway (x : ℚ) : Int :=
  if 0 ≤ x then ⌊x + 1 / 2⌋ else -⌊(-x) + 1 / 2⌋

/-! ## Calendar model (UTC, proleptic Gregorian)

`time.Time` is `Int` seconds since the Unix epoch.  The civil-from-days and
days-from-civil algorithms are the standard ones (Gregorian calendar), which
is what Go's `time` package computes for UTC instants. -/

/-- Civil date `(year, month, day)` of a day number (days since 1970-01-01). -/
def civilFromDays (z0 : Int) : Int × Int × Int :=
  let z := z0 + 719468
  let era := Int.fdiv z 146097
  let doe := z - era * 146097
  let yoe := (doe - doe / 1460 + doe / 36524 - doe / 146096) / 365
  let y := yoe + era * 400
  let doy := doe - (365 * yoe + yoe / 4 - yoe / 100)
  let mp := (5 * doy + 2) / 153
  let d := doy - (153 * mp + 2) / 5 + 1
  let m := mp + (if mp < 10 then 3 else -9)
  (y + (if m ≤ 2 then 1 else 0), m, d)

/-- Day number (days since 1970-01-01) of a civil date. -/
def daysFromCivil (y m d : Int) : Int :=
  let y1 := if m ≤ 2 then y - 1 else y
  let era := Int.fdiv y1 400
  let yoe := y1 - era * 400
  let doy := (153 * (m + (if m > 2 then -3 else 9)) + 2) / 5 + d - 1
  let doe := yoe * 365 + yoe / 4 - yoe / 100 + doy
  era * 146097 + doe - 719468

/-- Day number of an instant. -/
def daysOf (t : Int) : Int := Int.fdiv t 86400

/-- `time.Time.Year()`. -/
def yearOf (t : Int) : Int := (civilFromDays (daysOf t)).1

/-- `time.Time.Month()` (1..12). -/
def monthOf (t : Int) : Int := (civilFromDays (daysOf t)).2.1

/-- `time.Time.Day()` (1..31). -/
def dayOf (t : Int) : Int := (civilFromDays (daysOf t)).2.2

/-- `time.Time.Hour()`. -/
def hourOf (t : Int) : Int := (Int.emod t 86400) / 3600

/-- `time.Time.Minute()`. -/
def minuteOf (t : Int) : Int := (Int.emod t 3600) / 60

/-- `time.Time.Weekday()` (Sunday = 0): 1970-01-01 was a Thursday (= 4). -/
def weekdayOf (t : Int) : Int := Int.emod (daysOf t + 4) 7

/-- Weekday of a civil date. -/
def weekdayOfDate (y m d : Int) : Int := Int.emod (daysFromCivil y m d + 4) 7

/-- `time.Date(y, m, d, 0, 0, 0, 0, time.UTC)`: start of a civil day. -/
def mkTime (y m d : Int) : Int := daysFromCivil y m d * 86400

/-- `time.Time.AddDate(0, 0, n)` for a UTC instant. -/
def addDays (t n : Int) : Int := t + n * 86400

/-- Leap-year test. -/
def isLeap (y : Int) : Bool :=
  (y % 4 = 0 && y % 100 ≠ 0) || y % 400 = 0

/-- Number of days in a civil month. -/
def daysInMonth (y m : Int) : Int :=
  if m = 2 then (if isLeap y then 29 else 28)
  else if m = 4 ∨ m = 6 ∨ m = 9 ∨ m = 11 then 30
  else 31

/-! ## Data model (`internal/rules`) -/

/-- `rules.ObservedValue`: a captured milli-unit value and when it was
recorded. -/
structure ObservedValue where
  value : Int
  recordedAt : Int
  deriving DecidableEq, Repr

/-- `rules.Store`: the persisted variable map, modelled as an association
list (Go map semantics: at most one entry per key, enforced by `Store.set`).
Disk persistence always succeeds in the model. -/
structure Store where
  values : List (String × ObservedValue)
  deriving DecidableEq, Repr

/-- First-match association-list lookup (Go map read). -/
def lookupStr {α : Type} : List (String × α) → String → Option α
  | [], _ => none
  | (k, v) :: rest, n => if k = n then some v else lookupStr rest n

/-- Association-list update (Go map write): replace in place or append. -/
def setAssoc {α : Type} : List (String × α) → String → α → List (String × α)
  | [], n, v => [(n, v)]
  | (k, x) :: rest, n, v =>
    if k = n then (n, v) :: rest else (k, x) :: setAssoc rest n v

/-- `Store.Get`. -/
def Store.get (s : Store) (name : String) : Option ObservedValue :=
  lookupStr s.values name

/-- `Store.Set` (persistence modelled as always succeeding). -/
def Store.set (s : Store) (name : String) (v : ObservedValue) : Store :=
  ⟨setAssoc s.values name v⟩

/-- `Store.Snapshot`: variable name ↦ milli-unit value. -/
def Store.snapshot (s : Store) : List (String × Int) :=
  s.values.map (fun p => (p.1, p.2.value))

/-- `rules.Observe`.  `variableName` models the `Variable` field
(`variable` is a Lean keyword). -/
structure Observe where
  captureOn : String := ""
  variableName : String := ""
  value : String := ""
  deriving DecidableEq, Repr

/-- `rules.When`.  The `dayOfMonthRanges` field (`day_of_month_range`) is the
one exercised by the newest revision's tests (`TestEvaluateDayOfMonthRangeWrap`);
the evaluator revision in `src` ignores it. -/
structure When where
  window : String := ""
  dayOfMonth : List Int := []
  dayOfMonthRanges : List String := []
  daysOfWeek : List String := []
  nthWeekday : String := ""
  schedule : String := ""
  condition : String := ""
  deriving DecidableEq, Repr

/-- `rules.Rule` (the uninterpreted `Meta` payload is omitted; `observes`
models the `Observe` list — `observe` is a tactic keyword in Lean). -/
structure Rule where
  name : String := ""
  observes : List Observe := []
  when : List When := []
  notify : List String := []
  deriving DecidableEq, Repr

/-- `rules.Data`: the per-cycle evaluation snapshot. -/
structure Data where
  accounts : List (String × Int) := []
  vars : List (String × Int) := []
  now : Int := 0
  deriving DecidableEq, Repr

/-- `rules.Trigger`. -/
structure Trigger where
  rule : Rule
  message : String
  deriving DecidableEq, Repr

/-- `rules.LintResult`. -/
structure LintResult where
  name : String
  issues : List String
  nextEvalAt : Int
  hasNext : Bool
  deriving DecidableEq, Repr

/-- Abstraction of the third-party `robfig/cron` library: `parse` models
`cron.ParseStandard`, failing (`none`) on invalid expressions and otherwise
yielding the schedule's `Next` function (which, per the library's contract,
maps an instant to the next activation strictly after it). -/
structure CronEngine where
  parse : String → Option (Int → Int)

/-! ## Value Resolver (`resolveValue`, `extractArg`, `evaluateCondition`) -/

/-- `extractArg(expr, pre)`: the argument between the first `(` and the last
`)`, trimmed of spaces and then of double and single quotes; empty unless
`expr` starts with `pre`. -/
def extractArg (expr pre : String) : String :=
  match idxOfCh '(' expr.data, lastIdxOfCh ')' expr.data with
  | some start, some stop =>
    if stop ≤ start then ""
    else
      let arg := trimCh ((expr.data.drop (start + 1)).take (stop - start - 1))
      let arg := trimChar '"' arg
      let arg := trimChar '\'' arg
      if hasPre pre expr then ⟨arg⟩ else ""
  | _, _ => ""

/-- The non-multiplier branches of `resolveValue` (account lookups, variable
references, numeric literals). -/
def resolveRest (d : Data) (expr : String) : Except String Int :=
  if hasPre "account.balance(" expr then
    let name := extractArg expr "account.balance"
    if name = "" then .error "account balance missing name"
    else
      match lookupStr d.accounts name with
      | some v => .ok v
      | none => .error ("account \"" ++ name ++ "\" not found")
  else if hasPre "account.due(" expr then
    let name := extractArg expr "account.due"
    if name = "" then .error "account due missing name"
    else
      match lookupStr d.accounts name with
      | some v => .ok v
      | none => .error ("account \"" ++ name ++ "\" not found")
  else if hasPre "var." expr then
    let key := dropPre "var." expr
    match lookupStr d.vars key with
    | some v => .ok v
    | none => .error ("variable \"" ++ key ++ "\" not found")
  else
    match parseDecimal expr with
    | some (num, den) => .ok (roundDiv (num * 1000) den)
    | none => .error ("unsupported expression \"" ++ expr ++ "\"")

/-- One unfolding of `resolveValue`: the multiplier branch (exactly one `*`,
left factor parses as a float) recursing through `recur`, otherwise
`resolveRest`.  `expr` is already trimmed. -/
def resolveAux (d : Data) (expr : String)
    (recur : String → Except String Int) : Except String Int :=
  match splitStar expr with
  | [p0, p1] =>
    let factorStr := strTrim p0
    let rest := strTrim p1
    match parseDecimal factorStr with
    | some (fn, fd) => (recur rest).map (fun v => roundDiv (v * fn) fd)
    | none => resolveRest d expr
  | _ => resolveRest d expr

/-- Fuelled form of `resolveValue`.  The source recursion consumes the single
`*` of the expression, so any fuel above the string length is inert. -/
def resolveValueF (d : Data) : Nat → String → Except String Int
  | 0, _ => .error "recursion limit exceeded"
  | fuel + 1, e => resolveAux d (strTrim e) (resolveValueF d fuel)

/-- `rules.resolveValue`. -/
def resolveValue (d : Data) (e : String) : Except String Int :=
  resolveValueF d (e.data.length + 1) e

/-- Operator search of the condition pattern
`^\s*(.+?)\s*(<=|>=|==|!=|<|>)\s*(.+?)\s*$`: the earliest operator occurrence
that has a non-space character before it and a non-empty right side, longer
operators tried first at each position. -/
def findCondSplit (acc : List Char) (seen : Bool) :
    List Char → Option (List Char × String × List Char)
  | [] => none
  | c :: rest =>
    if seen then
      match c, rest with
      | '<', '=' :: r2 =>
        if trimCh r2 ≠ [] then some (acc.reverse, "<=", r2)
        else if trimCh rest ≠ [] then some (acc.reverse, "<", rest)
        else findCondSplit (c :: acc) true rest
      | '>', '=' :: r2 =>
        if trimCh r2 ≠ [] then some (acc.reverse, ">=", r2)
        else if trimCh rest ≠ [] then some (acc.reverse, ">", rest)
        else findCondSplit (c :: acc) true rest
      | '=', '=' :: r2 =>
        if trimCh r2 ≠ [] then some (acc.reverse, "==", r2)
        else findCondSplit (c :: acc) true rest
      | '!', '=' :: r2 =>
        if trimCh r2 ≠ [] then some (acc.reverse, "!=", r2)
        else findCondSplit (c :: acc) true rest
      | '<', _ =>
        if trimCh rest ≠ [] then some (acc.reverse, "<", rest)
        else findCondSplit (c :: acc) true rest
      | '>', _ =>
        if trimCh rest ≠ [] then some (acc.reverse, ">", rest)
        else findCondSplit (c :: acc) true rest
      | _, _ => findCondSplit (c :: acc) true rest
    else
      findCondSplit (c :: acc) (!(wsp c)) rest

/-- `rules.evaluateCondition`: split `left OP right`, resolve both sides,
compare. -/
def evaluateCondition (cond : String) (d : Data) : Except String Bool :=
  match findCondSplit [] false cond.data with
  | none => .error ("unable to parse condition \"" ++ cond ++ "\"")
  | some (l, op, r) =>
    match resolveValue d ⟨trimCh l⟩ with
    | .error e => .error ("left side: " ++ e)
    | .ok lv =>
      match resolveValue d ⟨trimCh r⟩ with
      | .error e => .error ("right side: " ++ e)
      | .ok rv =>
        if op = "<" then .ok (decide (lv < rv))
        else if op = "<=" then .ok (decide (lv ≤ rv))
        else if op = ">" then .ok (decide (lv > rv))
        else if op = ">=" then .ok (decide (lv ≥ rv))
        else if op = "==" then .ok (decide (lv = rv))
        else if op = "!=" then .ok (decide (lv ≠ rv))
        else .error ("unknown operator \"" ++ op ++ "\"")


/-! ## Schedule Gate (`shouldEvaluate` and the day/week matchers) -/

/-- `rules.sameCalendarDay`. -/
def sameCalendarDay (a b : Int) : Bool :=
  decide (yearOf a = yearOf b ∧ monthOf a = monthOf b ∧ dayOf a = dayOf b)

/-- `rules.sameMinute`. -/
def sameMinute (a b : Int) : Bool :=
  decide (yearOf a = yearOf b ∧ monthOf a = monthOf b ∧ dayOf a = dayOf b ∧
    hourOf a = hourOf b ∧ minuteOf a = minuteOf b)

/-- `rules.weekdayMap` (weekday numbers: Sunday = 0 … Saturday = 6). -/
def weekdayMap : List (String × Int) :=
  [("sun", 0), ("sunday", 0),
   ("mon", 1), ("monday", 1),
   ("tue", 2), ("tues", 2), ("tuesday", 2),
   ("wed", 3), ("wednesday", 3),
   ("thu", 4), ("thur", 4), ("thurs", 4), ("thursday", 4),
   ("fri", 5), ("friday", 5),
   ("sat", 6), ("saturday", 6)]

/-- `rules.matchesDayOfMonth` (the revision in `src`): exact positive-day
equality, vacuously true on an empty list. -/
def matchesDayOfMonth (days : List Int) (today : Int) : Bool :=
  if days = [] then true else days.any (fun d => d = today)

/-- `rules.matchesDayOfWeek`. -/
def matchesDayOfWeek (days : List String) (today : Int) : Bool :=
  if days = [] then true
  else days.any (fun d =>
    match lookupStr weekdayMap (lowerStr (strTrim d)) with
    | some wd => wd = today
    | none => false)

/-- `rules.parseNthWeekday`: `"<n|last> <weekday>"` (lower-cased, split on
whitespace); returns `(n, weekday, last)`. -/
def parseNthWeekday (expr : String) : Option (Nat × Int × Bool) :=
  match fieldsCh (lowerStr expr).data with
  | [nthStr, dayStr] =>
    let lastQ : Bool := nthStr = "last".data
    let nQ : Option Nat :=
      if lastQ then some 0
      else
        match parseAtoi ⟨nthStr⟩ with
        | some v => if v < 1 then none else some v.toNat
        | none => none
    match nQ, lookupStr weekdayMap ⟨dayStr⟩ with
    | some n, some wd => some (n, wd, lastQ)
    | _, _ => none
  | _ => none

/-- `rules.matchesNthWeekday`: collect the days of `now`'s month falling on
the requested weekday (the source walks day by day from the first of the
month; here that walk is the filtered list of the month's days) and compare
`now` with the `n`-th or last of them. -/
def matchesNthWeekday (expr : String) (now : Int) : Bool :=
  match parseNthWeekday expr with
  | none => false
  | some (n, wd, lastQ) =>
    let y := yearOf now
    let m := monthOf now
    let dim := (daysInMonth y m).toNat
    let matchDays := ((List.range dim).map (fun i => (i : Int) + 1)).filter
      (fun d => weekdayOfDate y m d = wd)
    if lastQ then
      match matchDays.getLast? with
      | some d => sameCalendarDay now (mkTime y m d)
      | none => false
    else if 0 < n ∧ n ≤ matchDays.length then
      match matchDays[n - 1]? with
      | some d => sameCalendarDay now (mkTime y m d)
      | none => false
    else false

/-- `rules.matchNth`: empty expression is vacuously true. -/
def matchNth (expr : String) (t : Int) : Bool :=
  if expr = "" then true else matchesNthWeekday expr t

/-- `rules.shouldEvaluate` (the revision in `src`): cron schedule wins when
set (eligible iff the schedule's next instant after `now - 2min` is in the
same calendar minute as `now`; parse failure means never eligible), otherwise
the day/week gates are AND-combined. -/
def shouldEvaluate (ce : CronEngine) (w : When) (now : Int) : Bool :=
  if w.schedule ≠ "" then
    match ce.parse w.schedule with
    | none => false
    | some next => sameMinute (next (now - 2 * 60)) now
  else if 0 < w.dayOfMonth.length ∧ matchesDayOfMonth w.dayOfMonth (dayOf now) = false then
    false
  else if 0 < w.daysOfWeek.length ∧ matchesDayOfWeek w.daysOfWeek (weekdayOf now) = false then
    false
  else if w.nthWeekday ≠ "" ∧ matchesNthWeekday w.nthWeekday now = false then
    false
  else true

/-! ## Spec-modelled Schedule Gate extensions

The newest revision of the engine supports negative `day_of_month` values and
`day_of_month_range` entries: its tests are in the repository
(`TestEvaluateNegativeDayOfMonth`, `TestEvaluateDayOfMonthRangeWrap`,
`TestLintDayOfMonthRangeValidation`) and the README documents both, but the
revision of `matchesDayOfMonth`/`shouldEvaluate` implementing them is not
among the source files.  The definitions below model that missing code from
the spec. -/

/-- Modelled from the spec: day-of-month matching of the newest (missing)
`matchesDayOfMonth` revision — positive values match `now.day`, negative
values match `daysInMonth(now) + value + 1` (so `-1` is the last day). -/
def matchesDayOfMonthSpec (days : List Int) (dim today : Int) : Bool :=
  if days = [] then true
  else days.any (fun d =>
    if 1 ≤ d then d = today
    else if d ≤ -1 then today = dim + d + 1
    else false)

/-- Modelled from the spec: parse a `"start-end"` day-of-month range. -/
def parseRange (s : String) : Option (Int × Int) :=
  match splitCh '-' s.data with
  | [a, b] =>
    match parseDigits a, parseDigits b with
    | some lo, some hi => some ((lo : Int), (hi : Int))
    | _, _ => none
  | _ => none

/-- Modelled from the spec: `day_of_month_range` matching of the newest
(missing) gate revision — `start ≤ end` is an inclusive interval, `start >
end` wraps across the month boundary; a gate with ranges matches when some
range does, and unparseable ranges never match. -/
def matchesRanges (ranges : List String) (today : Int) : Bool :=
  if ranges = [] then true
  else ranges.any (fun r =>
    match parseRange r with
    | none => false
    | some (lo, hi) =>
      if lo ≤ hi then decide (lo ≤ today ∧ today ≤ hi)
      else decide (today ≥ lo ∨ today ≤ hi))

/-- Modelled from the spec: the newest (missing) `shouldEvaluate` revision —
the `src` revision extended with the negative-day and wrap-range gate
semantics of the spec; schedule precedence is unchanged. -/
def shouldEvaluateSpec (ce : CronEngine) (w : When) (now : Int) : Bool :=
  if w.schedule ≠ "" then
    match ce.parse w.schedule with
    | none => false
    | some next => sameMinute (next (now - 2 * 60)) now
  else if 0 < w.dayOfMonth.length ∧
      matchesDayOfMonthSpec w.dayOfMonth (daysInMonth (yearOf now) (monthOf now))
        (dayOf now) = false then
    false
  else if 0 < w.dayOfMonthRanges.length ∧
      matchesRanges w.dayOfMonthRanges (dayOf now) = false then
    false
  else if 0 < w.daysOfWeek.length ∧ matchesDayOfWeek w.daysOfWeek (weekdayOf now) = false then
    false
  else if w.nthWeekday ≠ "" ∧ matchesNthWeekday w.nthWeekday now = false then
    false
  else true

/-! ## Evaluator (`Evaluate`, `captureObservation`) -/

/-- `rules.captureObservation`: decide capture eligibility from the
`capture_on` policy, resolve the value and write it to the store.  The store
is threaded explicitly (the Go code mutates it through a pointer). -/
def captureObservation (o : Observe) (st : Store) (d : Data) : Except String Store :=
  if o.variableName = "" ∨ o.value = "" then
    .error "observation missing variable or value"
  else
    let now := d.now
    let shouldCapture : Bool :=
      if o.captureOn = "" || eqFold o.captureOn "always" then true
      else
        match parseAtoi o.captureOn with
        | some day =>
          if dayOf now = day then
            match st.get o.variableName with
            | none => true
            | some existing => ! sameCalendarDay existing.recordedAt now
          else false
        | none => false
    if shouldCapture = false then .ok st
    else
      match resolveValue d o.value with
      | .error e => .error e
      | .ok v => .ok (st.set o.variableName ⟨v, now⟩)

/-- Result of the observe loop of one rule: final store, refreshed snapshot
and the first capture error, if any. -/
structure ObsOut where
  store : Store
  data : Data
  err : Option String
  deriving DecidableEq, Repr

/-- The `Observe` loop of `Evaluate`: capture each observation in order,
refreshing the snapshot's variables from the store after each one; stop at
the first error. -/
def evalObserves : List Observe → Store → Data → ObsOut
  | [], st, d => ⟨st, d, none⟩
  | o :: rest, st, d =>
    match captureObservation o st d with
    | .error e => ⟨st, d, some e⟩
    | .ok st1 => evalObserves rest st1 { d with vars := st1.snapshot }

/-- Result of the `When` loop of one rule. -/
structure WhensOut where
  trigs : List Trigger
  err : Option String
  deriving DecidableEq, Repr

/-- The `When` loop of `Evaluate`: skip empty conditions and ineligible
gates, evaluate the rest, collect triggers, abort on a condition error
(returning the triggers accumulated up to it). -/
def evalWhens (ce : CronEngine) (r : Rule) : List When → Data → WhensOut
  | [], _ => ⟨[], none⟩
  | w :: rest, d =>
    if w.condition = "" then evalWhens ce r rest d
    else if shouldEvaluate ce w d.now then
      match evaluateCondition w.condition d with
      | .error e => ⟨[], some e⟩
      | .ok true =>
        let o := evalWhens ce r rest d
        ⟨⟨r, "Rule " ++ r.name ++ " triggered: " ++ w.condition⟩ :: o.trigs, o.err⟩
      | .ok false => evalWhens ce r rest d
    else evalWhens ce r rest d

/-- Result of `Evaluate`: triggers, the threaded store and snapshot, and the
error that aborted the batch (if any). -/
structure EvalOut where
  trigs : List Trigger
  store : Option Store
  data : Data
  err : Option String
  deriving DecidableEq, Repr

/-- The `When` half of one rule's processing, with error context added as in
the source (`rule %s: %w`). -/
def evalRuleWhens (ce : CronEngine) (r : Rule) (s : Option Store) (d : Data) : EvalOut :=
  let o := evalWhens ce r r.when d
  match o.err with
  | some e => ⟨o.trigs, s, d, some ("rule " ++ r.name ++ ": " ++ e)⟩
  | none => ⟨o.trigs, s, d, none⟩

/-- One rule's processing: observes (skipped entirely when no store is
supplied), then whens; a capture error gets context `capture %s: %w`. -/
def evalRule (ce : CronEngine) (r : Rule) (s : Option Store) (d : Data) : EvalOut :=
  match s with
  | some st =>
    let obs := evalObserves r.observes st d
    match obs.err with
    | some e => ⟨[], some obs.store, obs.data, some ("capture " ++ r.name ++ ": " ++ e)⟩
    | none => evalRuleWhens ce r (some obs.store) obs.data
  | none => evalRuleWhens ce r none d

/-- `rules.Evaluate` (with a never-cancelled context): process the rules in
order, accumulating triggers; the first error aborts the remaining rules and
is returned with the triggers collected so far. -/
def evaluate (ce : CronEngine) : List Rule → Option Store → Data → EvalOut
  | [], s, d => ⟨[], s, d, none⟩
  | r :: rest, s, d =>
    let o1 := evalRule ce r s d
    match o1.err with
    | some _ => o1
    | none =>
      let o2 := evaluate ce rest o1.store o1.data
      ⟨o1.trigs ++ o2.trigs, o2.store, o2.data, o2.err⟩

/-! ## Next-Eval Estimator and lint -/

/-- The day-gate conjunction checked by `nextEval`'s scan (the loop body's
condition, using the `src` matchers). -/
def gatesMatch (w : When) (t : Int) : Bool :=
  matchesDayOfMonth w.dayOfMonth (dayOf t) &&
  matchesDayOfWeek w.daysOfWeek (weekdayOf t) &&
  matchNth w.nthWeekday t

/-- The scan loop of `rules.nextEval`: try day offsets `i, i+1, …` while fuel
remains (the source iterates `i = 0 … 365`, so 366 tries).  On the first
matching day, return its start of day plus the poll interval, clamped to
`now + poll` when that instant lies before `now`. -/
def nextEvalScan (w : When) (now poll : Int) : Nat → Nat → Int × Bool
  | _, 0 => (0, false)
  | i, fuel + 1 =>
    let t := addDays now (i : Int)
    if gatesMatch w t then
      let approx := mkTime (yearOf t) (monthOf t) (dayOf t) + poll
      (if approx < now then now + poll else approx, true)
    else nextEvalScan w now poll (i + 1) fuel

/-- `rules.nextEval`: schedule wins (its next instant, or not found on a
parse failure); a gate-free `When` evaluates at the next poll tick; otherwise
scan up to 365 days ahead for the first day whose gates all match. -/
def nextEval (ce : CronEngine) (w : When) (now poll : Int) : Int × Bool :=
  if w.schedule ≠ "" then
    match ce.parse w.schedule with
    | none => (0, false)
    | some next => (next now, true)
  else if w.dayOfMonth.length = 0 ∧ w.daysOfWeek.length = 0 ∧ w.nthWeekday = "" then
    (now + poll, true)
  else nextEvalScan w now poll 0 366

/-- `rules.lintWhen` (the revision in `src`): per-`When` issues, in source
order. -/
def lintWhen (ce : CronEngine) (w : When) : List String :=
  (if w.condition = "" then ["condition is empty; rule will never fire"] else []) ++
  (w.dayOfMonth.filterMap (fun d =>
    if d < 1 ∨ d > 31 then
      some ("day_of_month value " ++ toString d ++ " is out of range 1-31")
    else none)) ++
  (w.daysOfWeek.filterMap (fun d =>
    match lookupStr weekdayMap (lowerStr (strTrim d)) with
    | some _ => none
    | none => some ("days_of_week value \"" ++ d ++ "\" is invalid"))) ++
  (if w.nthWeekday ≠ "" ∧ parseNthWeekday w.nthWeekday = none then
    ["nth_weekday value \"" ++ w.nthWeekday ++ "\" is invalid"]
  else []) ++
  (if w.schedule ≠ "" then
    (if (ce.parse w.schedule).isNone then ["schedule invalid cron"] else []) ++
    (if 0 < w.dayOfMonth.length ∨ 0 < w.daysOfWeek.length ∨ w.nthWeekday ≠ "" then
      ["schedule present; day/week gates will be ignored"]
    else [])
  else [])

/-- Fuelled scanner behind `findVarRefs` (each step consumes at least one
character, so the string's length is always enough fuel). -/
def findVarRefsF : Nat → List Char → List String
  | 0, _ => []
  | fuel + 1, l =>
    match l with
    | 'v' :: 'a' :: 'r' :: '.' :: rest =>
      let name := rest.takeWhile (fun c => c.isAlphanum || c = '_')
      if name = [] then findVarRefsF fuel rest
      else (⟨name⟩ : String) :: findVarRefsF fuel (rest.drop name.length)
    | _ :: rest => findVarRefsF fuel rest
    | [] => []

/-- Modelled from the spec: the variable references (`var.<name>`) occurring
in a condition string.  The lint check that flags references to variables no
`Observe` produces is exercised by `TestLintReportsNextEvalAndConflicts` but
its implementing revision is not among the source files; references are
modelled as `var.` followed by an identifier run. -/
def findVarRefs (l : List Char) : List String := findVarRefsF l.length l

/-- Modelled from the spec: the per-rule unknown-variable lint issues — one
issue per condition reference to a variable name that no `Observe` entry of
the rule produces, with the issue string observed by the repository's lint
test. -/
def unknownVarIssues (r : Rule) : List String :=
  r.when.foldr (fun w acc =>
    ((findVarRefs w.condition.data).filterMap (fun v =>
      if (r.observes.map (fun o => o.variableName)).contains v then none
      else some ("condition references unknown variable \"" ++ v ++ "\""))) ++ acc) []

/-- Modelled from the spec: the next-eval estimate of a whole rule for lint
output (the estimator rev in `src` takes a single `When`; the spec's
`nextEligible(whens, …)` reduces to it via the rule's first `When`, which is
all the lint claims need — no claim constrains this field). -/
def nextEvalRule (ce : CronEngine) (r : Rule) (now poll : Int) : Int × Bool :=
  match r.when with
  | [] => (now + poll, true)
  | w :: _ => nextEval ce w now poll

/-- One rule's lint result (`LintWithPoll` loop body): name issues, per-`When`
issues, and the spec-modelled unknown-variable issues. -/
def lintRule (ce : CronEngine) (now poll : Int) (seen : List String) (r : Rule) :
    LintResult :=
  let nameIssues :=
    (if r.name = "" then ["rule has no name"] else []) ++
    (if seen.contains r.name ∧ r.name ≠ "" then ["duplicate rule name"] else [])
  let ne := nextEvalRule ce r now poll
  { name := r.name
    issues := nameIssues ++ r.when.foldr (fun w acc => lintWhen ce w ++ acc) []
      ++ unknownVarIssues r
    nextEvalAt := ne.1
    hasNext := ne.2 }

/-- `rules.LintWithPoll` after loading: lint each rule in order, tracking the
names already seen for duplicate detection. -/
def lintRules (ce : CronEngine) (now poll : Int) :
    List Rule → List String → List LintResult
  | [], _ => []
  | r :: rest, seen => lintRule ce now poll seen r :: lintRules ce now poll rest (r.name :: seen)

/-! ## Supporting lemmas -/

/-- The denominator produced by `parseDecimal` is a positive power of ten. -/
lemma parseDecimal_den_pos {s : String} {p : Int × Int}
    (h : parseDecimal s = some p) : 0 < p.2 := by
  unfold parseDecimal at h
  split at h
  all_goals dsimp only at h
  all_goals try split at h
  all_goals try split at h
  all_goals try split at h
  all_goals first
    | (cases h; dsimp only; positivity)
    | exact absurd h (by simp)

/-- `roundDiv a b` is rounding of the exact rational `a / b`
(halves away from zero). -/
lemma roundDiv_eq (a b : Int) (hb : 0 < b) :
    roundDiv a b = roundAway ((a : ℚ) / (b : ℚ)) := by
  have hbQ : (0 : ℚ) < (b : ℚ) := by exact_mod_cast hb
  have key : ∀ c : Int, 0 ≤ c →
      (2 * c + b) / (2 * b) = ⌊(c : ℚ) / (b : ℚ) + 1 / 2⌋ := by
    intro c _
    have h2b : ((2 * b).toNat : ℤ) = 2 * b := Int.toNat_of_nonneg (by omega)
    have hx : (c : ℚ) / (b : ℚ) + 1 / 2
        = ((2 * c + b : ℤ) : ℚ) / (((2 * b).toNat : ℕ) : ℚ) := by
      have hc : (((2 * b).toNat : ℕ) : ℚ) = ((2 * b : ℤ) : ℚ) := by exact_mod_cast h2b
      rw [hc]
      push_cast
      field_simp
      ring
    rw [hx, Rat.floor_intCast_div_natCast, h2b]
  rcases le_or_lt 0 a with ha | ha
  · have hx : (0 : ℚ) ≤ (a : ℚ) / (b : ℚ) := by positivity
    rw [roundDiv, roundAway, if_pos ha, if_pos hx, key a ha]
  · have hx : (a : ℚ) / (b : ℚ) < 0 :=
      div_neg_of_neg_of_pos (by exact_mod_cast ha) hbQ
    rw [roundDiv, roundAway, if_neg (by omega), if_neg (not_le.mpr hx)]
    rw [key (-a) (by omega)]
    push_cast
    ring_nf

lemma splitCh_ne_nil (sep : Char) (l : List Char) : splitCh sep l ≠ [] := by
  induction l with
  | nil => simp [splitCh]
  | cons c rest ih =>
    unfold splitCh
    split
    · simp
    · split <;> simp_all

/-- A separator-free list is not split. -/
lemma splitCh_not_mem {sep : Char} : ∀ {l : List Char}, sep ∉ l → splitCh sep l = [l] := by
  intro l
  induction l with
  | nil => intro _; rfl
  | cons c rest ih =>
    intro h
    have hc : ¬ c = sep := fun e => h (by simp [e])
    unfold splitCh
    rw [if_neg hc, ih (fun m => h (List.mem_cons_of_mem _ m))]

/-- A one-field split means the field is separator-free. -/
lemma splitCh_single {sep : Char} : ∀ {l b : List Char}, splitCh sep l = [b] → sep ∉ b := by
  intro l
  induction l with
  | nil =>
    intro b h
    simp [splitCh] at h
    subst h
    simp
  | cons c rest ih =>
    intro b h
    unfold splitCh at h
    split at h
    · simp at h
      exact absurd h.2 (splitCh_ne_nil sep rest)
    · rename_i hc
      split at h
      · rename_i heq
        exact absurd heq (splitCh_ne_nil sep rest)
      · rename_i g gs heq
        simp at h
        obtain ⟨hb, hgs⟩ := h
        subst hgs
        have hg := ih (heq.symm ▸ rfl : splitCh sep rest = [g])
        rw [← hb]
        simp only [List.mem_cons]
        rintro (h1 | h2)
        · exact hc h1.symm
        · exact hg h2

/-- In a two-field split, the second field is separator-free. -/
lemma splitCh_pair {sep : Char} : ∀ {l a b : List Char},
    splitCh sep l = [a, b] → sep ∉ b := by
  intro l
  induction l with
  | nil => intro a b h; simp [splitCh] at h
  | cons c rest ih =>
    intro a b h
    unfold splitCh at h
    split at h
    · simp at h
      exact splitCh_single h.2
    · split at h
      · simp at h
      · rename_i g gs heq
        simp at h
        obtain ⟨-, hgs⟩ := h
        exact ih (by rw [heq, hgs])

lemma trimCh_sublist (l : List Char) : List.Sublist (trimCh l) l := by
  unfold trimCh dropTrail
  have h1 : List.Sublist ((List.dropWhile wsp (List.dropWhile wsp l).reverse).reverse)
      ((List.dropWhile wsp l).reverse.reverse) := (List.dropWhile_sublist _).reverse
  rw [List.reverse_reverse] at h1
  exact h1.trans (List.dropWhile_sublist _)

lemma not_mem_strTrim {c : Char} {s : String} (h : c ∉ s.data) : c ∉ (strTrim s).data :=
  fun m => h ((trimCh_sublist s.data).mem m)

/-- Fuel above one is inert when the (trimmed) expression holds no `*`:
only the multiplier branch recurses. -/
lemma resolveValueF_fuel (d : Data) {s : String} (h : '*' ∉ (strTrim s).data) :
    ∀ f g : Nat, resolveValueF d (f + 1) s = resolveValueF d (g + 1) s := by
  intro f g
  have hs : splitCh '*' (strTrim s).data = [(strTrim s).data] := splitCh_not_mem h
  show resolveAux d (strTrim s) (resolveValueF d f)
      = resolveAux d (strTrim s) (resolveValueF d g)
  unfold resolveAux
  rw [splitStar, hs]
  simp only [List.map]

/-- The multiplier branch of `resolveValue`, as a rewriting rule. -/
lemma resolveValue_mult (d : Data) (expr a b : String) (fn fd : Int)
    (h1 : splitStar (strTrim expr) = [a, b])
    (h2 : parseDecimal (strTrim a) = some (fn, fd)) :
    resolveValue d expr
      = (resolveValue d (strTrim b)).map (fun v => roundDiv (v * fn) fd) := by
  rcases hsp : splitCh '*' (strTrim expr).data with - | ⟨x, - | ⟨y, - | ⟨z, w⟩⟩⟩ <;>
    rw [splitStar, hsp] at h1 <;> simp at h1
  obtain ⟨ha, hb⟩ := h1
  subst ha
  subst hb
  have hstar : ('*') ∉ (strTrim (strTrim (⟨y⟩ : String))).data := by
    have hy : ('*') ∉ y := splitCh_pair hsp
    exact not_mem_strTrim (not_mem_strTrim hy)
  have hlen : expr.data ≠ [] := by
    intro he
    rw [show (strTrim expr).data = trimCh expr.data from rfl, he] at hsp
    simp [trimCh, dropTrail, splitCh] at hsp
  obtain ⟨m, hm⟩ : ∃ m, expr.data.length = m + 1 := by
    cases hq : expr.data with
    | nil => exact absurd hq hlen
    | cons u v => exact ⟨v.length, by simp [hq]⟩
  have step1 : resolveValue d expr
      = resolveAux d (strTrim expr) (resolveValueF d expr.data.length) := rfl
  rw [step1]
  unfold resolveAux
  rw [splitStar, hsp]
  simp only [List.map, h2]
  rw [show resolveValueF d expr.data.length (strTrim ⟨y⟩)
      = resolveValue d (strTrim ⟨y⟩) by
    rw [resolveValue, hm]
    exact resolveValueF_fuel d hstar m ((strTrim (⟨y⟩ : String)).data.length)]

/-- The numeric-literal branch of `resolveValue`, as a rewriting rule. -/
lemma resolveValue_literal (d : Data) (expr : String) (q : Int × Int)
    (h1 : (splitStar (strTrim expr)).length ≠ 2)
    (h2 : hasPre "account.balance(" (strTrim expr) = false)
    (h3 : hasPre "account.due(" (strTrim expr) = false)
    (h4 : hasPre "var." (strTrim expr) = false)
    (h5 : parseDecimal (strTrim expr) = some q) :
    resolveValue d expr = .ok (roundDiv (q.1 * 1000) q.2) := by
  have step1 : resolveValue d expr
      = resolveAux d (strTrim expr) (resolveValueF d expr.data.length) := rfl
  rw [step1]
  unfold resolveAux
  rcases hsp : splitStar (strTrim expr) with - | ⟨x, - | ⟨y, rest⟩⟩
  · show resolveRest d (strTrim expr) = _
    unfold resolveRest
    simp [h2, h3, h4, h5]
  · show resolveRest d (strTrim expr) = _
    unfold resolveRest
    simp [h2, h3, h4, h5]
  · cases rest with
    | nil =>
      rw [hsp] at h1
      simp at h1
    | cons z w =>
      show resolveRest d (strTrim expr) = _
      unfold resolveRest
      simp [h2, h3, h4, h5]



/-! ## Claim theorems (part 1) -/

lemma lookupStr_setAssoc_self {α : Type} (l : List (String × α)) (n : String) (v : α) :
    lookupStr (setAssoc l n v) n = some v := by
  induction l with
  | nil => simp [setAssoc, lookupStr]
  | cons p rest ih =>
    obtain ⟨k, x⟩ := p
    unfold setAssoc
    split
    · simp [lookupStr]
    · rename_i hk
      unfold lookupStr
      rw [if_neg hk]
      exact ih

lemma lookupStr_setAssoc_ne {α : Type} (l : List (String × α)) (n k : String) (v : α)
    (h : k ≠ n) : lookupStr (setAssoc l n v) k = lookupStr l k := by
  have hnk : n ≠ k := Ne.symm h
  induction l with
  | nil => simp [setAssoc, lookupStr, hnk]
  | cons p rest ih =>
    obtain ⟨k0, x⟩ := p
    unfold setAssoc
    split
    · rename_i hk
      subst hk
      unfold lookupStr
      rw [if_neg hnk, if_neg hnk]
    · unfold lookupStr
      split
      · rfl
      · exact ih

/-- C9: after a successful `Set(name, v)` on the Observation Store, `Get(name)`
returns `(v, true)`, and `Get` of every other key returns exactly what it
returned before — no previously stored key is lost. -/
theorem c9_store_set_get (s : Store) (n : String) (v : ObservedValue) :
    (s.set n v).get n = some v ∧
    ∀ k, k ≠ n → (s.set n v).get k = s.get k := by
  constructor
  · exact lookupStr_setAssoc_self s.values n v
  · intro k hk
    exact lookupStr_setAssoc_ne s.values n k v hk

/-- Witness for `c9_store_set_get` at a concrete store. -/
theorem c9_witness :
    (Store.set ⟨[("old", ⟨1, 2⟩)]⟩ "x" ⟨3, 4⟩).get "x" = some ⟨3, 4⟩ ∧
    ("old" : String) ≠ "x" ∧
    (Store.set ⟨[("old", ⟨1, 2⟩)]⟩ "x" ⟨3, 4⟩).get "old"
      = (Store.get ⟨[("old", ⟨1, 2⟩)]⟩ "old") :=
  ⟨(c9_store_set_get ⟨[("old", ⟨1, 2⟩)]⟩ "x" ⟨3, 4⟩).1, by decide,
    (c9_store_set_get ⟨[("old", ⟨1, 2⟩)]⟩ "x" ⟨3, 4⟩).2 "old" (by decide)⟩

/-- C10 counterexample: an `Observe` with `capture_on = "sometimes"` (non-empty,
not "always", not a parseable integer) but an empty `variable` field makes
`captureObservation` return an error, not nil — the claim's premise holds at
this input and its conclusion fails. -/
theorem c10_counterexample :
    ("sometimes" : String) ≠ "" ∧ eqFold "sometimes" "always" = false ∧
    parseAtoi "sometimes" = none ∧
    captureObservation ⟨"sometimes", "", "1"⟩ ⟨[]⟩ ⟨[], [], 0⟩
      = .error "observation missing variable or value" :=
  ⟨by decide, by decide, by decide, rfl⟩

/-- C10 (amended): for an `Observe` with non-empty `variable` and `value`
whose `capture_on` is non-empty, not "always" (case-insensitively) and either
unparseable as an integer or a day different from `now`'s day-of-month,
`captureObservation` skips silently: the store is unchanged and no error is
reported (the value expression is never resolved). -/
theorem c10_capture_skip (o : Observe) (st : Store) (d : Data)
    (hv : o.variableName ≠ "") (hval : o.value ≠ "")
    (hc : o.captureOn ≠ "") (ha : eqFold o.captureOn "always" = false) :
    (parseAtoi o.captureOn = none → captureObservation o st d = .ok st) ∧
    (∀ dv, parseAtoi o.captureOn = some dv → dv ≠ dayOf d.now →
      captureObservation o st d = .ok st) := by
  unfold captureObservation
  rw [if_neg (by tauto)]
  constructor
  · intro hp
    simp [hc, ha, hp]
  · intro dv hp hd
    have hd2 : ¬ dayOf d.now = dv := fun e => hd e.symm
    simp [hc, ha, hp, hd2]

/-- Witness for `c10_capture_skip` at concrete observations. -/
theorem c10_witness :
    captureObservation ⟨"sometimes", "x", "1"⟩ ⟨[]⟩ ⟨[], [], 0⟩ = .ok ⟨[]⟩ ∧
    captureObservation ⟨"7", "x", "1"⟩ ⟨[]⟩ ⟨[], [], 0⟩ = .ok ⟨[]⟩ :=
  ⟨(c10_capture_skip ⟨"sometimes", "x", "1"⟩ ⟨[]⟩ ⟨[], [], 0⟩ (by decide) (by decide)
      (by decide) (by decide)).1 (by decide),
   (c10_capture_skip ⟨"7", "x", "1"⟩ ⟨[]⟩ ⟨[], [], 0⟩ (by decide) (by decide)
      (by decide) (by decide)).2 7 (by decide) (by decide)⟩

/-- C2: when `when.schedule` is non-empty, eligibility is decided solely by
the cron expression: a parse failure means never eligible (and no error), a
successful parse makes the gate eligible iff the schedule's next instant
after `now - 2min` lies in the same calendar minute as `now`, and the
day/week gates are ignored (any `When` with the same schedule gets the same
verdict). -/
theorem c2_schedule_precedence (ce : CronEngine) (w : When) (now : Int)
    (h : w.schedule ≠ "") :
    (ce.parse w.schedule = none → shouldEvaluate ce w now = false) ∧
    (∀ next, ce.parse w.schedule = some next →
      shouldEvaluate ce w now = sameMinute (next (now - 2 * 60)) now) ∧
    (∀ w2 : When, w2.schedule = w.schedule →
      shouldEvaluate ce w2 now = shouldEvaluate ce w now) := by
  refine ⟨?_, ?_, ?_⟩
  · intro hp
    unfold shouldEvaluate
    rw [if_pos h, hp]
  · intro nx hp
    unfold shouldEvaluate
    rw [if_pos h, hp]
  · intro w2 h2
    unfold shouldEvaluate
    rw [if_pos h, if_pos (show w2.schedule ≠ "" from h2 ▸ h), h2]

/-- A concrete cron engine whose `Next` adds two minutes (for witnesses). -/
def ceW : CronEngine := ⟨fun _ => some (fun t => t + 120)⟩

/-- Witness for `c2_schedule_precedence` at a concrete engine and instant. -/
theorem c2_witness :
    ("* * * * *" : String) ≠ "" ∧
    shouldEvaluate ceW { schedule := "* * * * *", dayOfMonth := [3] } 1704070800 = true :=
  ⟨by decide, by
    rw [(c2_schedule_precedence ceW { schedule := "* * * * *", dayOfMonth := [3] } 1704070800
      (by decide)).2.1 (fun t => t + 120) rfl]
    decide⟩


/-- C1: with an empty schedule and `day_of_month = [-k]` (`1 ≤ k ≤ 31`), the
Schedule Gate is eligible exactly on the day numbered
`daysInMonth(now) - k + 1` of `now`'s month (so `-1` matches the last day and
no other). -/
theorem c1_negative_day_of_month (ce : CronEngine) (k : Int) (now : Int)
    (h1 : 1 ≤ k) (h2 : k ≤ 31) :
    (shouldEvaluateSpec ce { dayOfMonth := [-k] } now = true ↔
      dayOf now = daysInMonth (yearOf now) (monthOf now) - k + 1) := by
  unfold shouldEvaluateSpec
  rw [if_neg (by simp)]
  simp only [matchesDayOfMonthSpec, matchesRanges, matchesDayOfWeek, matchesNthWeekday]
  simp only [List.length_nil, List.length_cons]
  have hneg : ¬ (1 : Int) ≤ -k := by omega
  have hneg2 : -k ≤ -1 := by omega
  simp [hneg, hneg2]
  omega

/-- Witness for `c1_negative_day_of_month`: 2024-01-31 (a 31-day month). -/
theorem c1_witness :
    (1 : Int) ≤ 1 ∧ (1 : Int) ≤ 31 ∧
    shouldEvaluateSpec ⟨fun _ => none⟩ { dayOfMonth := [-1] } 1706659200 = true ∧
    dayOf 1706659200 = 31 :=
  ⟨le_refl 1, by omega,
    (c1_negative_day_of_month ⟨fun _ => none⟩ 1 1706659200 (le_refl 1) (by omega)).mpr
      (by decide), by decide⟩

/-- C8: with an empty schedule, a `day_of_month_range` of `"27-5"` makes the
gate eligible exactly on days 27..end-of-month and 1..5; in general a range
`"start-end"` with `start > end` matches exactly when
`now.day ≥ start ∨ now.day ≤ end`. -/
theorem c8_day_of_month_range (ce : CronEngine) :
    (∀ now, shouldEvaluateSpec ce { dayOfMonthRanges := ["27-5"] } now = true ↔
      (27 ≤ dayOf now ∨ dayOf now ≤ 5)) ∧
    (∀ r lo hi now, parseRange r = some (lo, hi) → hi < lo →
      (shouldEvaluateSpec ce { dayOfMonthRanges := [r] } now = true ↔
        (dayOf now ≥ lo ∨ dayOf now ≤ hi))) := by
  constructor
  · intro now
    unfold shouldEvaluateSpec
    rw [if_neg (by simp)]
    have hp : parseRange "27-5" = some (27, 5) := by decide
    simp [matchesDayOfMonthSpec, matchesRanges, hp]
  · intro r lo hi now hp hlt
    unfold shouldEvaluateSpec
    rw [if_neg (by simp)]
    have hlt2 : ¬ lo ≤ hi := by omega
    simp [matchesDayOfMonthSpec, matchesRanges, hp, hlt2]

/-- Witness for `c8_day_of_month_range`: 2024-03-02. -/
theorem c8_witness :
    parseRange "27-3" = some (27, 3) ∧ (3 : Int) < 27 ∧
    (shouldEvaluateSpec ⟨fun _ => none⟩ { dayOfMonthRanges := ["27-5"] } 1709337600 = true) ∧
    (shouldEvaluateSpec ⟨fun _ => none⟩ { dayOfMonthRanges := ["27-3"] } 1709337600 = true) :=
  ⟨by decide, by decide,
    ((c8_day_of_month_range ⟨fun _ => none⟩).1 1709337600).mpr (by decide),
    ((c8_day_of_month_range ⟨fun _ => none⟩).2 "27-3" 27 3 1709337600 (by decide)
      (by decide)).mpr (by decide)⟩


/-- C3: `resolveValue` evaluates a decimal numeric literal `x` to
`round(x * 1000)` milli-units, and evaluates a multiplier form `f * e`
(exactly one `*`, left operand parsing as a floating literal) to
`round(f * resolveValue(e))`; in particular `resolveValue "50.5" = 50500`
and `resolveValue "2 * 25.25" = 50500`. -/
theorem c3_resolve_value (d : Data) :
    (∀ expr a b f, splitStar (strTrim expr) = [a, b] →
      parseDecimal (strTrim a) = some f →
      resolveValue d expr
        = (resolveValue d (strTrim b)).map
            (fun v : Int => roundAway ((v : ℚ) * ((f.1 : ℚ) / (f.2 : ℚ))))) ∧
    (∀ expr q, (splitStar (strTrim expr)).length ≠ 2 →
      hasPre "account.balance(" (strTrim expr) = false →
      hasPre "account.due(" (strTrim expr) = false →
      hasPre "var." (strTrim expr) = false →
      parseDecimal (strTrim expr) = some q →
      resolveValue d expr = .ok (roundAway (((q.1 : ℚ) / (q.2 : ℚ)) * 1000))) ∧
    resolveValue d "50.5" = .ok 50500 ∧
    resolveValue d "2 * 25.25" = .ok 50500 := by
  refine ⟨?_, ?_, ?_, ?_⟩
  · intro expr a b f h1 h2
    obtain ⟨fn, fd⟩ := f
    rw [resolveValue_mult d expr a b fn fd h1 h2]
    have hpos : (0 : Int) < fd := parseDecimal_den_pos h2
    have hf : (fun v => roundDiv (v * fn) fd)
        = (fun v : Int => roundAway ((v : ℚ) * ((fn : ℚ) / (fd : ℚ)))) := by
      funext v
      rw [roundDiv_eq _ _ hpos]
      congr 1
      push_cast
      ring
    rw [hf]
  · intro expr q h1 h2 h3 h4 h5
    rw [resolveValue_literal d expr q h1 h2 h3 h4 h5]
    rw [roundDiv_eq _ _ (parseDecimal_den_pos h5)]
    congr 2
    push_cast
    ring
  · rw [resolveValue_literal d "50.5" (505, 10) (by decide) (by decide) (by decide)
      (by decide) (by decide)]
    rw [show roundDiv ((505, (10 : Int)).1 * 1000) (505, (10 : Int)).2 = 50500 from by decide]
  · rw [resolveValue_mult d "2 * 25.25" "2 " " 25.25" 2 1 (by decide) (by decide)]
    rw [resolveValue_literal d (strTrim " 25.25") (2525, 100) (by decide) (by decide)
      (by decide) (by decide) (by decide)]
    simp only [Except.map]
    rw [show roundDiv (roundDiv ((2525, (100 : Int)).1 * 1000) (2525, (100 : Int)).2 * 2) 1
        = 50500 from by decide]

/-- Witness for `c3_resolve_value` at a concrete data snapshot. -/
theorem c3_witness :
    resolveValue ⟨[], [], 0⟩ "50.5" = .ok 50500 ∧
    resolveValue ⟨[], [], 0⟩ "2 * 25.25" = .ok 50500 :=
  ⟨(c3_resolve_value ⟨[], [], 0⟩).2.2.1, (c3_resolve_value ⟨[], [], 0⟩).2.2.2⟩


/-! ## Claim theorems (part 2: the Evaluator) -/

lemma evaluate_nil (ce : CronEngine) (s : Option Store) (d : Data) :
    evaluate ce [] s d = ⟨[], s, d, none⟩ := rfl

lemma evaluate_cons_err (ce : CronEngine) (r : Rule) (rest : List Rule)
    (s : Option Store) (d : Data) (e : String)
    (h : (evalRule ce r s d).err = some e) :
    evaluate ce (r :: rest) s d = evalRule ce r s d := by
  show (match (evalRule ce r s d).err with
    | some _ => evalRule ce r s d
    | none => ⟨(evalRule ce r s d).trigs
        ++ (evaluate ce rest (evalRule ce r s d).store (evalRule ce r s d).data).trigs,
      (evaluate ce rest (evalRule ce r s d).store (evalRule ce r s d).data).store,
      (evaluate ce rest (evalRule ce r s d).store (evalRule ce r s d).data).data,
      (evaluate ce rest (evalRule ce r s d).store (evalRule ce r s d).data).err⟩) = _
  rw [h]

lemma evaluate_cons_ok (ce : CronEngine) (r : Rule) (rest : List Rule)
    (s : Option Store) (d : Data)
    (h : (evalRule ce r s d).err = none) :
    evaluate ce (r :: rest) s d =
      ⟨(evalRule ce r s d).trigs
          ++ (evaluate ce rest (evalRule ce r s d).store (evalRule ce r s d).data).trigs,
        (evaluate ce rest (evalRule ce r s d).store (evalRule ce r s d).data).store,
        (evaluate ce rest (evalRule ce r s d).store (evalRule ce r s d).data).data,
        (evaluate ce rest (evalRule ce r s d).store (evalRule ce r s d).data).err⟩ := by
  show (match (evalRule ce r s d).err with
    | some _ => evalRule ce r s d
    | none => ⟨(evalRule ce r s d).trigs
        ++ (evaluate ce rest (evalRule ce r s d).store (evalRule ce r s d).data).trigs,
      (evaluate ce rest (evalRule ce r s d).store (evalRule ce r s d).data).store,
      (evaluate ce rest (evalRule ce r s d).store (evalRule ce r s d).data).data,
      (evaluate ce rest (evalRule ce r s d).store (evalRule ce r s d).data).err⟩) = _
  rw [h]

lemma evalRule_obs_err (ce : CronEngine) (r : Rule) (st : Store) (d : Data) (e : String)
    (h : (evalObserves r.observes st d).err = some e) :
    evalRule ce r (some st) d
      = ⟨[], some (evalObserves r.observes st d).store,
          (evalObserves r.observes st d).data,
          some ("capture " ++ r.name ++ ": " ++ e)⟩ := by
  show (match (evalObserves r.observes st d).err with
    | some e => (⟨[], some (evalObserves r.observes st d).store,
        (evalObserves r.observes st d).data,
        some ("capture " ++ r.name ++ ": " ++ e)⟩ : EvalOut)
    | none => evalRuleWhens ce r (some (evalObserves r.observes st d).store)
        (evalObserves r.observes st d).data) = _
  rw [h]

lemma evalRule_obs_ok (ce : CronEngine) (r : Rule) (st : Store) (d : Data)
    (h : (evalObserves r.observes st d).err = none) :
    evalRule ce r (some st) d
      = evalRuleWhens ce r (some (evalObserves r.observes st d).store)
          (evalObserves r.observes st d).data := by
  show (match (evalObserves r.observes st d).err with
    | some e => (⟨[], some (evalObserves r.observes st d).store,
        (evalObserves r.observes st d).data,
        some ("capture " ++ r.name ++ ": " ++ e)⟩ : EvalOut)
    | none => evalRuleWhens ce r (some (evalObserves r.observes st d).store)
        (evalObserves r.observes st d).data) = _
  rw [h]

lemma evalRuleWhens_store (ce : CronEngine) (r : Rule) (s : Option Store) (d : Data) :
    (evalRuleWhens ce r s d).store = s := by
  unfold evalRuleWhens
  cases h : (evalWhens ce r r.when d).err <;> simp [h]

lemma evalRule_store_some (ce : CronEngine) (r : Rule) (st : Store) (d : Data) :
    ∃ st1, (evalRule ce r (some st) d).store = some st1 := by
  cases h : (evalObserves r.observes st d).err with
  | some e =>
    rw [evalRule_obs_err ce r st d e h]
    exact ⟨_, rfl⟩
  | none =>
    rw [evalRule_obs_ok ce r st d h, evalRuleWhens_store]
    exact ⟨_, rfl⟩

lemma evaluate_store_some (ce : CronEngine) (rules : List Rule) (st : Store) (d : Data) :
    ∃ st1, (evaluate ce rules (some st) d).store = some st1 := by
  induction rules generalizing st d with
  | nil => exact ⟨st, rfl⟩
  | cons r rest ih =>
    obtain ⟨st1, hst1⟩ := evalRule_store_some ce r st d
    cases h1 : (evalRule ce r (some st) d).err with
    | some e =>
      rw [evaluate_cons_err ce r rest (some st) d e h1]
      exact ⟨st1, hst1⟩
    | none =>
      rw [evaluate_cons_ok ce r rest (some st) d h1]
      rw [show (⟨(evalRule ce r (some st) d).trigs
          ++ (evaluate ce rest (evalRule ce r (some st) d).store (evalRule ce r (some st) d).data).trigs,
        (evaluate ce rest (evalRule ce r (some st) d).store (evalRule ce r (some st) d).data).store,
        (evaluate ce rest (evalRule ce r (some st) d).store (evalRule ce r (some st) d).data).data,
        (evaluate ce rest (evalRule ce r (some st) d).store (evalRule ce r (some st) d).data).err⟩ : EvalOut).store
        = (evaluate ce rest (evalRule ce r (some st) d).store (evalRule ce r (some st) d).data).store
        from rfl]
      rw [hst1]
      exact ih st1 (evalRule ce r (some st) d).data

lemma evaluate_append_ok (ce : CronEngine) (xs ys : List Rule) (s : Option Store) (d : Data)
    (h : (evaluate ce xs s d).err = none) :
    evaluate ce (xs ++ ys) s d =
      ⟨(evaluate ce xs s d).trigs
          ++ (evaluate ce ys (evaluate ce xs s d).store (evaluate ce xs s d).data).trigs,
        (evaluate ce ys (evaluate ce xs s d).store (evaluate ce xs s d).data).store,
        (evaluate ce ys (evaluate ce xs s d).store (evaluate ce xs s d).data).data,
        (evaluate ce ys (evaluate ce xs s d).store (evaluate ce xs s d).data).err⟩ := by
  induction xs generalizing s d with
  | nil =>
    simp [evaluate_nil]
  | cons r rest ih =>
    cases h1 : (evalRule ce r s d).err with
    | some e =>
      rw [evaluate_cons_err ce r rest s d e h1] at h
      exact absurd h (by simp [h1])
    | none =>
      have hrest : (evaluate ce rest (evalRule ce r s d).store (evalRule ce r s d).data).err
          = none := by
        rw [evaluate_cons_ok ce r rest s d h1] at h
        exact h
      show evaluate ce (r :: (rest ++ ys)) s d = _
      rw [evaluate_cons_ok ce r (rest ++ ys) s d h1]
      rw [ih _ _ hrest]
      rw [evaluate_cons_ok ce r rest s d h1]
      simp [List.append_assoc]

lemma evalObserves_err_of_missing (obses : List Observe) (st : Store) (d : Data)
    (h : ∃ o ∈ obses, o.variableName = "" ∨ o.value = "") :
    ∃ e, (evalObserves obses st d).err = some e := by
  induction obses generalizing st d with
  | nil => simp at h
  | cons o rest ih =>
    rcases h with ⟨o2, ho2, hbad⟩
    rcases List.mem_cons.mp ho2 with he | hm
    · subst he
      unfold evalObserves
      rw [show captureObservation o2 st d = .error "observation missing variable or value" from by
        unfold captureObservation
        rw [if_pos hbad]]
      exact ⟨_, rfl⟩
    · unfold evalObserves
      cases hc : captureObservation o st d with
      | error e => exact ⟨e, rfl⟩
      | ok st1 => exact ih st1 _ ⟨o2, hm, hbad⟩

/-- C6: if a store is supplied and some rule has an `Observe` with an empty
`variable` or `value`, `Evaluate` stops the batch at that rule (the result
does not depend on the rules after it) and returns an error whose message
carries the offending rule's name, together with exactly the triggers
accumulated from the rules before it. -/
theorem c6_capture_error_aborts (ce : CronEngine) (pre post : List Rule) (r : Rule)
    (st0 : Store) (d : Data)
    (hpre : (evaluate ce pre (some st0) d).err = none)
    (hbad : ∃ o ∈ r.observes, o.variableName = "" ∨ o.value = "") :
    (∃ e st1 d1, evaluate ce (pre ++ r :: post) (some st0) d =
      ⟨(evaluate ce pre (some st0) d).trigs, st1, d1,
        some ("capture " ++ r.name ++ ": " ++ e)⟩) ∧
    evaluate ce (pre ++ r :: post) (some st0) d
      = evaluate ce (pre ++ [r]) (some st0) d := by
  obtain ⟨st1, hst1⟩ := evaluate_store_some ce pre st0 d
  obtain ⟨e, he⟩ := evalObserves_err_of_missing r.observes st1
    (evaluate ce pre (some st0) d).data hbad
  have hr := evalRule_obs_err ce r st1 (evaluate ce pre (some st0) d).data e he
  have hsingle : ∀ rest : List Rule,
      evaluate ce (r :: rest) (some st1) (evaluate ce pre (some st0) d).data
        = ⟨[], some (evalObserves r.observes st1 (evaluate ce pre (some st0) d).data).store,
            (evalObserves r.observes st1 (evaluate ce pre (some st0) d).data).data,
            some ("capture " ++ r.name ++ ": " ++ e)⟩ := by
    intro rest
    rw [evaluate_cons_err ce r rest (some st1) (evaluate ce pre (some st0) d).data
      ("capture " ++ r.name ++ ": " ++ e) (by rw [hr]), hr]
  constructor
  · refine ⟨e, some (evalObserves r.observes st1 (evaluate ce pre (some st0) d).data).store,
      (evalObserves r.observes st1 (evaluate ce pre (some st0) d).data).data, ?_⟩
    rw [evaluate_append_ok ce pre (r :: post) (some st0) d hpre, hst1, hsingle post]
    simp
  · rw [evaluate_append_ok ce pre (r :: post) (some st0) d hpre,
      evaluate_append_ok ce pre [r] (some st0) d hpre, hst1, hsingle post, hsingle []]

/-- A rule with a field-less observation (for the C6 witness). -/
def rBadW : Rule := { name := "badrule", observes := [⟨"always", "", "1"⟩], when := [], notify := [] }

/-- A trivial rule (for the C6 witness). -/
def rOtherW : Rule := { name := "other", observes := [], when := [], notify := [] }

/-- Witness for `c6_capture_error_aborts` at a concrete batch. -/
theorem c6_witness :
    (evaluate ceW [] (some ⟨[]⟩) ⟨[], [], 0⟩).err = none ∧
    (∃ e st1 d1, evaluate ceW (([] : List Rule) ++ rBadW :: [rOtherW]) (some ⟨[]⟩) ⟨[], [], 0⟩
        = ⟨(evaluate ceW [] (some ⟨[]⟩) ⟨[], [], 0⟩).trigs, st1, d1,
            some ("capture " ++ rBadW.name ++ ": " ++ e)⟩) :=
  ⟨rfl, (c6_capture_error_aborts ceW [] [rOtherW] rBadW ⟨[]⟩ ⟨[], [], 0⟩ rfl
      ⟨⟨"always", "", "1"⟩, by decide, Or.inl rfl⟩).1⟩


lemma dayStr_facts (d : Int) (h1 : 1 ≤ d) (h2 : d ≤ 31) :
    parseAtoi (toString d) = some d ∧ toString d ≠ "" ∧
    eqFold (toString d) "always" = false := by
  interval_cases d <;> exact ⟨by decide, by decide, by decide⟩

lemma sameCalendarDay_dayOf {a b : Int} (h : sameCalendarDay a b = true) :
    dayOf b = dayOf a := by
  have h2 := of_decide_eq_true h
  exact h2.2.2.symm

/-- C5: for an `Observe` whose `capture_on` is the current day-of-month as a
decimal string, running `Evaluate` at two instants of the same calendar day
writes the observation exactly once: the first run stores `(v, t1)` and the
second run returns the store completely unchanged (same value, same
`recorded_at`). -/
theorem c5_idempotent_capture (ce : CronEngine) (o : Observe) (nm : String)
    (nts : List String) (st0 : Store) (d : Data) (t1 t2 v : Int)
    (hv : o.variableName ≠ "") (hval : o.value ≠ "")
    (hc : o.captureOn = toString (dayOf t1))
    (hd1 : 1 ≤ dayOf t1) (hd2 : dayOf t1 ≤ 31)
    (hsame : sameCalendarDay t1 t2 = true)
    (hget : st0.get o.variableName = none)
    (hres : resolveValue { d with now := t1 } o.value = .ok v) :
    (evaluate ce [{ name := nm, observes := [o], when := [], notify := nts }]
        (some st0) { d with now := t1 }).store
      = some (st0.set o.variableName ⟨v, t1⟩) ∧
    (st0.set o.variableName ⟨v, t1⟩).get o.variableName = some ⟨v, t1⟩ ∧
    (evaluate ce [{ name := nm, observes := [o], when := [], notify := nts }]
        (some (st0.set o.variableName ⟨v, t1⟩)) { d with now := t2 }).store
      = some (st0.set o.variableName ⟨v, t1⟩) := by
  obtain ⟨hatoi, hne, hfold⟩ := dayStr_facts (dayOf t1) hd1 hd2
  have hvv : ¬ (o.variableName = "" ∨ o.value = "") := by tauto
  have hcap1 : captureObservation o st0 { d with now := t1 }
      = .ok (st0.set o.variableName ⟨v, t1⟩) := by
    unfold captureObservation
    rw [if_neg hvv]
    simp only [hc, hne, hfold, hatoi]
    simp [hget, hres]
  have hget1 : (st0.set o.variableName ⟨v, t1⟩).get o.variableName = some ⟨v, t1⟩ :=
    lookupStr_setAssoc_self st0.values o.variableName ⟨v, t1⟩
  have hday2 : dayOf t2 = dayOf t1 := sameCalendarDay_dayOf hsame
  have hcap2 : captureObservation o (st0.set o.variableName ⟨v, t1⟩) { d with now := t2 }
      = .ok (st0.set o.variableName ⟨v, t1⟩) := by
    unfold captureObservation
    rw [if_neg hvv]
    simp only [hc, hne, hfold, hatoi]
    simp [hget1, hday2, hsame]
  refine ⟨?_, hget1, ?_⟩
  · simp [evaluate, evalRule, evalObserves, hcap1, evalRuleWhens, evalWhens]
  · simp [evaluate, evalRule, evalObserves, hcap2, evalRuleWhens, evalWhens]

/-- Witness for `c5_idempotent_capture`: capture day 15, instants one hour
apart on 1970-01-15. -/
theorem c5_witness :
    sameCalendarDay 1209600 1213200 = true ∧
    toString (dayOf 1209600) = "15" ∧
    (evaluate ceW [{ name := "cap", observes := [⟨"15", "x", "1"⟩], when := [], notify := [] }]
        (some ⟨[]⟩) ⟨[], [], 1209600⟩).store = some (Store.set ⟨[]⟩ "x" ⟨1000, 1209600⟩) ∧
    (evaluate ceW [{ name := "cap", observes := [⟨"15", "x", "1"⟩], when := [], notify := [] }]
        (some (Store.set ⟨[]⟩ "x" ⟨1000, 1209600⟩)) ⟨[], [], 1213200⟩).store
      = some (Store.set ⟨[]⟩ "x" ⟨1000, 1209600⟩) := by
  have h := c5_idempotent_capture ceW ⟨"15", "x", "1"⟩ "cap" [] ⟨[]⟩ ⟨[], [], 0⟩
    1209600 1213200 1000 (by decide) (by decide) (by decide) (by decide) (by decide)
    (by decide) (by decide) rfl
  exact ⟨by decide, by decide, h.1, h.2.2⟩


/-! ## Claim theorems (part 3: the Next-Eval Estimator) -/

lemma nextEvalScan_no_match (w : When) (now poll : Int) :
    ∀ fuel i : Nat, (∀ j : Nat, i ≤ j → j < i + fuel → gatesMatch w (addDays now (j : Int)) = false) →
    nextEvalScan w now poll i fuel = (0, false) := by
  intro fuel
  induction fuel with
  | zero => intro i _; rfl
  | succ n ih =>
    intro i h
    unfold nextEvalScan
    dsimp only
    rw [h i (le_refl i) (by omega)]
    simp only [Bool.false_eq_true, if_false]
    exact ih (i + 1) (fun j hj1 hj2 => h j (by omega) (by omega))

lemma nextEvalScan_first_match (w : When) (now poll : Int) :
    ∀ fuel i i0 : Nat, i ≤ i0 → i0 < i + fuel →
      gatesMatch w (addDays now (i0 : Int)) = true →
      (∀ j : Nat, i ≤ j → j < i0 → gatesMatch w (addDays now (j : Int)) = false) →
      nextEvalScan w now poll i fuel =
        (if mkTime (yearOf (addDays now (i0 : Int))) (monthOf (addDays now (i0 : Int)))
              (dayOf (addDays now (i0 : Int))) + poll < now
         then now + poll
         else mkTime (yearOf (addDays now (i0 : Int))) (monthOf (addDays now (i0 : Int)))
              (dayOf (addDays now (i0 : Int))) + poll, true) := by
  intro fuel
  induction fuel with
  | zero => intro i i0 h1 h2; omega
  | succ n ih
  => intro i i0 h1 h2 hm hnone
     unfold nextEvalScan
     dsimp only
     rcases eq_or_lt_of_le h1 with he | hlt
     · subst he
       rw [hm]
       simp only [if_true]
     · rw [hnone i (le_refl i) hlt]
       simp only [Bool.false_eq_true, if_false]
       exact ih (i + 1) i0 (by omega) (by omega) hm (fun j hj1 hj2 => hnone j (by omega) hj2)

/-- C7 (amended): with no schedule, `nextEval` returns `(now + poll, true)`
when there are no day/week gates; with gates, the scan finds the first offset
`i0 < 366` whose day matches all gates and returns that day's start-of-day
plus `poll`, replaced by `now + poll` only when that instant is earlier than
`now` (possible only when the matching day is today); with no matching day in
the horizon it returns found = false. -/
theorem c7_next_eval (ce : CronEngine) (w : When) (now poll : Int)
    (hs : w.schedule = "") :
    (w.dayOfMonth = [] → w.daysOfWeek = [] → w.nthWeekday = "" →
      nextEval ce w now poll = (now + poll, true)) ∧
    (∀ i0 : Nat, ¬ (w.dayOfMonth = [] ∧ w.daysOfWeek = [] ∧ w.nthWeekday = "") →
      i0 < 366 → gatesMatch w (addDays now (i0 : Int)) = true →
      (∀ j : Nat, j < i0 → gatesMatch w (addDays now (j : Int)) = false) →
      nextEval ce w now poll =
        (if mkTime (yearOf (addDays now (i0 : Int))) (monthOf (addDays now (i0 : Int)))
              (dayOf (addDays now (i0 : Int))) + poll < now
         then now + poll
         else mkTime (yearOf (addDays now (i0 : Int))) (monthOf (addDays now (i0 : Int)))
              (dayOf (addDays now (i0 : Int))) + poll, true)) ∧
    (¬ (w.dayOfMonth = [] ∧ w.daysOfWeek = [] ∧ w.nthWeekday = "") →
      (∀ j : Nat, j < 366 → gatesMatch w (addDays now (j : Int)) = false) →
      nextEval ce w now poll = (0, false)) := by
  have hns : ¬ w.schedule ≠ "" := by simp [hs]
  refine ⟨?_, ?_, ?_⟩
  · intro h1 h2 h3
    unfold nextEval
    rw [if_neg hns, if_pos (by simp [h1, h2, h3])]
  · intro i0 hg hi0 hm hnone
    unfold nextEval
    rw [if_neg hns, if_neg (by
      simp only [List.length_eq_zero]
      tauto)]
    exact nextEvalScan_first_match w now poll 366 0 i0 (Nat.zero_le i0) (by omega) hm
      (fun j _ hj2 => hnone j hj2)
  · intro hg hnone
    unfold nextEval
    rw [if_neg hns, if_neg (by
      simp only [List.length_eq_zero]
      tauto)]
    exact nextEvalScan_no_match w now poll 366 0 (fun j _ hj2 => hnone j (by omega))

/-- C7 counterexample: at 2024-01-01 01:00 UTC with `day_of_month = [1]` and
a 12-hour poll interval, the matching day is today and `nextEval` returns
2024-01-01 12:00 — which is earlier than `now + pollInterval` (13:00), so the
claim's "clamped to be no earlier than now + pollInterval" is false. -/
theorem c7_counterexample :
    dayOf 1704070800 = 1 ∧
    nextEval ceW { dayOfMonth := [1] } 1704070800 43200 = (1704110400, true) ∧
    (1704110400 : Int) < 1704070800 + 43200 :=
  ⟨by decide, by decide, by decide⟩

/-- Witness for `c7_next_eval`: the gate-free clause and the first-match
clause at concrete inputs. -/
theorem c7_witness :
    ("" : String) = "" ∧
    nextEval ceW {} 5 7 = (5 + 7, true) ∧
    nextEval ceW { dayOfMonth := [1] } 1704070800 43200 = (1704110400, true) := by
  refine ⟨rfl, (c7_next_eval ceW {} 5 7 rfl).1 rfl rfl rfl, ?_⟩
  have h := (c7_next_eval ceW { dayOfMonth := [1] } 1704070800 43200 rfl).2.1 0
    (by simp) (by omega) (by decide) (fun j hj => absurd hj (Nat.not_lt_zero j))
  rw [h]
  decide



/-! ## Claim theorems (part 4: lint) -/

lemma mem_foldr_append {α β : Type} (f : α → List β) (x : β) :
    ∀ (ws : List α) (w : α), w ∈ ws → x ∈ f w → x ∈ ws.foldr (fun w acc => f w ++ acc) [] := by
  intro ws
  induction ws with
  | nil => intro w hw; simp at hw
  | cons a rest ih =>
    intro w hw hx
    rcases List.mem_cons.mp hw with he | hm
    · subst he
      exact List.mem_append.mpr (Or.inl hx)
    · exact List.mem_append.mpr (Or.inr (ih w hm hx))

lemma mem_unknownVarIssues {r : Rule} {w : When} {v : String}
    (hw : w ∈ r.when) (hv : v ∈ findVarRefs w.condition.data)
    (hno : v ∉ r.observes.map (fun o => o.variableName)) :
    ("condition references unknown variable \"" ++ v ++ "\"") ∈ unknownVarIssues r := by
  unfold unknownVarIssues
  refine mem_foldr_append _ _ r.when w hw ?_
  apply List.mem_filterMap.mpr
  refine ⟨v, hv, ?_⟩
  rw [if_neg ?_]
  intro hc
  exact hno (List.mem_of_elem_eq_true hc)


/-- C4: for every rule whose `When` condition references `var.<v>` while no
`Observe` entry of that rule has variable name `v`, the lint operation
includes the issue string `condition references unknown variable "<v>"` in
that rule's lint result. -/
theorem c4_lint_unknown_variable (ce : CronEngine) (now poll : Int) :
    ∀ (rules : List Rule) (seen : List String) (i : Nat) (hi : i < rules.length)
      (w : When) (v : String),
      w ∈ (rules.get ⟨i, hi⟩).when →
      v ∈ findVarRefs w.condition.data →
      v ∉ (rules.get ⟨i, hi⟩).observes.map (fun o => o.variableName) →
      ∃ res, (lintRules ce now poll rules seen)[i]? = some res ∧
        ("condition references unknown variable \"" ++ v ++ "\"") ∈ res.issues := by
  intro rules
  induction rules with
  | nil => intro seen i hi; simp at hi
  | cons r rest ih =>
    intro seen i hi w v hw hv hno
    cases i with
    | zero =>
      refine ⟨lintRule ce now poll seen r, by simp [lintRules], ?_⟩
      unfold lintRule
      simp only []
      apply List.mem_append.mpr
      apply Or.inr
      exact mem_unknownVarIssues hw hv hno
    | succ j =>
      have hj : j < rest.length := by simpa using hi
      obtain ⟨res, hres, hmem⟩ := ih (r.name :: seen) j hj w v hw hv hno
      exact ⟨res, by simpa [lintRules] using hres, hmem⟩

/-- The repository lint test's `bad_refs` rule (for the C4 witness). -/
def rLintW : Rule :=
  { name := "bad_refs",
    observes := [⟨"", "captured", "account.due(\"CC\")"⟩],
    when := [{ condition := "var.missing_var < 10" }],
    notify := [] }

/-- Witness for `c4_lint_unknown_variable` at the lint test's rule. -/
theorem c4_witness :
    ∃ res, (lintRules ceW 0 3600 [rLintW] [])[0]? = some res ∧
      ("condition references unknown variable \"missing_var\"") ∈ res.issues := by
  have h := c4_lint_unknown_variable ceW 0 3600 [rLintW] [] 0 (by simp)
    { condition := "var.missing_var < 10" } "missing_var" (by simp [rLintW])
    (by decide) (by decide)
  exact h


end YnabAlerts
